import Mathlib

/-!
Verification of the NZTM Transverse Mercator conversion code (src/nztm.c).

The C source is shallowly embedded over the real numbers: every C double
becomes a real number, the library calls sin, cos, sqrt become Real.sin,
Real.cos, Real.sqrt, and the two longitude-normalization while loops of
geod_tm become well-founded recursive functions.  Division follows Lean's
real-field convention (x / 0 = 0).
-/

namespace NZTM

noncomputable section

/-- The constant PI exactly as defined in the source: 3.1415926535898. -/
def PI : ℝ := 3.1415926535898

/-- TWOPI, defined in the source as 2.0 * PI. -/
def TWOPI : ℝ := 2 * PI

/-- rad2deg, defined in the source as 180 / PI. -/
def rad2deg : ℝ := 180 / PI

/-- The tmprojection structure of the source: projection parameters,
ellipsoid parameters and the cached intermediate om. -/
structure tmprojection where
  meridian : ℝ
  scalef : ℝ
  orglat : ℝ
  falsee : ℝ
  falsen : ℝ
  utom : ℝ
  a : ℝ
  rf : ℝ
  f : ℝ
  e2 : ℝ
  ep2 : ℝ
  om : ℝ

/-- meridian_arc: length of meridional arc (Helmert formula), translated
line by line from the source. -/
def meridian_arc (tm : tmprojection) (lt : ℝ) : ℝ :=
  let e2 := tm.e2
  let a := tm.a
  let e4 := e2 * e2
  let e6 := e4 * e2
  let A0 := 1 - (e2 / 4) - (3 * e4 / 64) - (5 * e6 / 256)
  let A2 := (3 / 8) * (e2 + e4 / 4 + 15 * e6 / 128)
  let A4 := (15 / 256) * (e4 + 3 * e6 / 4)
  let A6 := 35 * e6 / 3072
  a * (A0 * lt - A2 * Real.sin (2 * lt) + A4 * Real.sin (4 * lt)
      - A6 * Real.sin (6 * lt))

/-- define_tmprojection: fills a tmprojection from the seven scalar inputs
plus the ellipsoid axis and inverse flattening, then caches
om = meridian_arc at the origin latitude (which only reads the a and e2
fields, set before the C code computes om). -/
def define_tmprojection (a rf cm sf lto fe fn utom : ℝ) : tmprojection :=
  let f : ℝ := if rf ≠ 0 then 1 / rf else 0
  let e2v : ℝ := 2 * f - f * f
  let tm0 : tmprojection :=
    { meridian := cm, scalef := sf, orglat := lto, falsee := fe,
      falsen := fn, utom := utom, a := a, rf := rf, f := f, e2 := e2v,
      ep2 := e2v / (1 - e2v), om := 0 }
  { tm0 with om := meridian_arc tm0 lto }

/-- foot_point_lat: foot point latitude from the meridional arc,
translated line by line from the source. -/
def foot_point_lat (tm : tmprojection) (m : ℝ) : ℝ :=
  let f := tm.f
  let a := tm.a
  let n := f / (2 - f)
  let n2 := n * n
  let n3 := n2 * n
  let n4 := n2 * n2
  let g := a * (1 - n) * (1 - n2) * (1 + 9 * n2 / 4 + 225 * n4 / 64)
  let sig := m / g
  sig + (3 * n / 2 - 27 * n3 / 32) * Real.sin (2 * sig)
      + (21 * n2 / 16 - 55 * n4 / 32) * Real.sin (4 * sig)
      + (151 * n3 / 96) * Real.sin (6 * sig)
      + (1097 * n4 / 512) * Real.sin (8 * sig)

/-- The first while loop of geod_tm: while dlon is greater than PI,
subtract TWOPI. -/
def subLoopPI (d : ℝ) : ℝ :=
  if h : d > PI then subLoopPI (d - TWOPI) else d
termination_by Nat.ceil ((d - PI) / TWOPI)
decreasing_by
  have hT : (0 : ℝ) < TWOPI := by norm_num [TWOPI, PI]
  have hx : 0 < (d - PI) / TWOPI := div_pos (by linarith) hT
  have h1 : 1 ≤ Nat.ceil ((d - PI) / TWOPI) := Nat.one_le_ceil_iff.mpr hx
  have harg : (d - TWOPI - PI) / TWOPI = (d - PI) / TWOPI - 1 := by
    rw [show d - TWOPI - PI = (d - PI) - TWOPI by ring, sub_div,
      div_self (ne_of_gt hT)]
  rw [harg]
  have h2 : Nat.ceil ((d - PI) / TWOPI - 1) ≤ Nat.ceil ((d - PI) / TWOPI) - 1 := by
    rw [Nat.ceil_le, Nat.cast_sub h1, Nat.cast_one]
    have h3 := Nat.le_ceil ((d - PI) / TWOPI)
    linarith
  omega

/-- The second while loop of geod_tm: while dlon is less than -PI,
add TWOPI. -/
def addLoopPI (d : ℝ) : ℝ :=
  if h : d < -PI then addLoopPI (d + TWOPI) else d
termination_by Nat.ceil ((-PI - d) / TWOPI)
decreasing_by
  have hT : (0 : ℝ) < TWOPI := by norm_num [TWOPI, PI]
  have hx : 0 < (-PI - d) / TWOPI := div_pos (by linarith) hT
  have h1 : 1 ≤ Nat.ceil ((-PI - d) / TWOPI) := Nat.one_le_ceil_iff.mpr hx
  have harg : (-PI - (d + TWOPI)) / TWOPI = (-PI - d) / TWOPI - 1 := by
    rw [show -PI - (d + TWOPI) = (-PI - d) - TWOPI by ring, sub_div,
      div_self (ne_of_gt hT)]
  rw [harg]
  have h2 : Nat.ceil ((-PI - d) / TWOPI - 1) ≤ Nat.ceil ((-PI - d) / TWOPI) - 1 := by
    rw [Nat.ceil_le, Nat.cast_sub h1, Nat.cast_one]
    have h3 := Nat.le_ceil ((-PI - d) / TWOPI)
    linarith
  omega

/-- The longitude-difference normalization performed by the two while
loops at the start of geod_tm: first reduce above PI, then raise below
-PI. -/
def normLon (d : ℝ) : ℝ := addLoopPI (subLoopPI d)

/-- Fuel-indexed version of the first while loop of geod_tm, used to state
that the loop terminates: subFuel n d performs at most n iterations. -/
def subFuel : ℕ → ℝ → ℝ
  | 0, d => d
  | Nat.succ n, d => if d > PI then subFuel n (d - TWOPI) else d

/-- Fuel-indexed version of the second while loop of geod_tm. -/
def addFuel : ℕ → ℝ → ℝ
  | 0, d => d
  | Nat.succ n, d => if d < -PI then addFuel n (d + TWOPI) else d

/-- tm_geod: Transverse Mercator easting/northing to longitude/latitude,
translated line by line from the source; the result pair is (longitude,
latitude), matching the order of the two output pointers. -/
def tm_geod (tm : tmprojection) (ce cn : ℝ) : ℝ × ℝ :=
  let fn := tm.falsen
  let fe := tm.falsee
  let sf := tm.scalef
  let e2 := tm.e2
  let a := tm.a
  let cm := tm.meridian
  let om := tm.om
  let utom := tm.utom
  let cn1 := (cn - fn) * utom / sf + om
  let fphi := foot_point_lat tm cn1
  let slt := Real.sin fphi
  let clt := Real.cos fphi
  let eslt := 1 - e2 * slt * slt
  let eta := a / Real.sqrt eslt
  let rho := eta * (1 - e2) / eslt
  let psi := eta / rho
  let E := (ce - fe) * utom
  let x := E / (eta * sf)
  let x2 := x * x
  let t := slt / clt
  let t2 := t * t
  let t4 := t2 * t2
  let trm1 := 1 / 2
  let trm2 := ((-4 * psi + 9 * (1 - t2)) * psi + 12 * t2) / 24
  let trm3 := ((((8 * (11 - 24 * t2) * psi
                - 12 * (21 - 71 * t2)) * psi
                + 15 * ((15 * t2 - 98) * t2 + 15)) * psi
                + 180 * ((-3 * t2 + 5) * t2)) * psi + 360 * t4) / 720
  let trm4 := (((1575 * t2 + 4095) * t2 + 3633) * t2 + 1385) / 40320
  let lt := fphi + (t * x * E / (sf * rho)) *
      (((trm4 * x2 - trm3) * x2 + trm2) * x2 - trm1)
  let trm1 := 1
  let trm2 := (psi + 2 * t2) / 6
  let trm3 := (((-4 * (1 - 6 * t2) * psi
             + (9 - 68 * t2)) * psi
             + 72 * t2) * psi
             + 24 * t4) / 120
  let trm4 := (((720 * t2 + 1320) * t2 + 662) * t2 + 61) / 5040
  let ln := cm - (x / clt) * (((trm4 * x2 - trm3) * x2 + trm2) * x2 - trm1)
  (ln, lt)

/-- geod_tm: longitude/latitude to Transverse Mercator easting/northing,
translated line by line from the source; the result pair is (easting,
northing). -/
def geod_tm (tm : tmprojection) (ln lt : ℝ) : ℝ × ℝ :=
  let fn := tm.falsen
  let fe := tm.falsee
  let sf := tm.scalef
  let e2 := tm.e2
  let a := tm.a
  let cm := tm.meridian
  let om := tm.om
  let utom := tm.utom
  let dlon := normLon (ln - cm)
  let m := meridian_arc tm lt
  let slt := Real.sin lt
  let eslt := 1 - e2 * slt * slt
  let eta := a / Real.sqrt eslt
  let rho := eta * (1 - e2) / eslt
  let psi := eta / rho
  let clt := Real.cos lt
  let w := dlon
  let wc := clt * w
  let wc2 := wc * wc
  let t := slt / clt
  let t2 := t * t
  let t4 := t2 * t2
  let t6 := t2 * t4
  let trm1 := (psi - t2) / 6
  let trm2 := (((4 * (1 - 6 * t2) * psi
               + (1 + 8 * t2)) * psi
               - 2 * t2) * psi + t4) / 120
  let trm3 := (61 - 479 * t2 + 179 * t4 - t6) / 5040
  let gce := (sf * eta * dlon * clt) *
      (((trm3 * wc2 + trm2) * wc2 + trm1) * wc2 + 1)
  let ce := gce / utom + fe
  let trm1 := 1 / 2
  let trm2 := ((4 * psi + 1) * psi - t2) / 24
  let trm3 := ((((8 * (11 - 24 * t2) * psi
              - 28 * (1 - 6 * t2)) * psi
              + (1 - 32 * t2)) * psi
              - 2 * t2) * psi
              + t4) / 720
  let trm4 := (1385 - 3111 * t2 + 543 * t4 - t6) / 40320
  let gcn := (eta * t) * ((((trm4 * wc2 + trm3) * wc2 + trm2) * wc2 + trm1) * wc2)
  let cn := (gcn + m - om) * sf / utom + fn
  (ce, cn)

/-- Modelled from the spec: the NZTM ellipsoid semi-major axis constant
NZTM_A, defined in the header nztm.h which is not part of src/. -/
def NZTM_A : ℝ := 6378137

/-- Modelled from the spec: the NZTM inverse flattening constant NZTM_RF
from the missing header nztm.h. -/
def NZTM_RF : ℝ := 298.257222101

/-- Modelled from the spec: the NZTM central meridian in degrees, NZTM_CM
from the missing header nztm.h. -/
def NZTM_CM : ℝ := 173

/-- Modelled from the spec: the NZTM scale factor NZTM_SF from the missing
header nztm.h. -/
def NZTM_SF : ℝ := 0.9996

/-- Modelled from the spec: the NZTM origin latitude in degrees, NZTM_OLAT
from the missing header nztm.h. -/
def NZTM_OLAT : ℝ := 0

/-- Modelled from the spec: the NZTM false easting NZTM_FE from the
missing header nztm.h. -/
def NZTM_FE : ℝ := 1600000

/-- Modelled from the spec: the NZTM false northing NZTM_FN from the
missing header nztm.h. -/
def NZTM_FN : ℝ := 10000000

/-- The two static variables of the source that implement the lazily
constructed NZTM projection: the flag initiallized and the projection
storage. -/
structure NztmGlobals where
  initiallized : Bool
  nztm_projection : tmprojection

/-- get_nztm_projection as a state transition on the two static
variables: on the first call it constructs the projection from the NZTM
constants and sets the flag, afterwards it returns the stored value
unchanged. -/
def get_nztm_projection (s : NztmGlobals) : tmprojection × NztmGlobals :=
  if s.initiallized then (s.nztm_projection, s)
  else
    let p := define_tmprojection NZTM_A NZTM_RF (NZTM_CM / rad2deg) NZTM_SF
      (NZTM_OLAT / rad2deg) NZTM_FE NZTM_FN 1
    (p, { initiallized := true, nztm_projection := p })

/-- A concrete projection record (unit sphere, central meridian 0, no
offsets) used for concrete instantiations. -/
def cexTM : tmprojection :=
  { meridian := 0, scalef := 1, orglat := 0, falsee := 0, falsen := 0,
    utom := 1, a := 1, rf := 0, f := 0, e2 := 0, ep2 := 0, om := 0 }

end

end NZTM

namespace NZTM

/-! ### Helper lemmas about the longitude-normalization loops -/

/-- Unfolding lemma: the first loop stops when the guard fails. -/
theorem subLoopPI_of_not_gt {d : ℝ} (h : ¬ d > PI) : subLoopPI d = d := by
  rw [subLoopPI.eq_def]
  exact dif_neg h

/-- Unfolding lemma: one iteration of the first loop. -/
theorem subLoopPI_of_gt {d : ℝ} (h : d > PI) :
    subLoopPI d = subLoopPI (d - TWOPI) := by
  rw [subLoopPI.eq_def]
  exact dif_pos h

/-- Unfolding lemma: the second loop stops when the guard fails. -/
theorem addLoopPI_of_not_lt {d : ℝ} (h : ¬ d < -PI) : addLoopPI d = d := by
  rw [addLoopPI.eq_def]
  exact dif_neg h

/-- Unfolding lemma: one iteration of the second loop. -/
theorem addLoopPI_of_lt {d : ℝ} (h : d < -PI) :
    addLoopPI d = addLoopPI (d + TWOPI) := by
  rw [addLoopPI.eq_def]
  exact dif_pos h

/-- The first loop always ends at or below PI. -/
theorem subLoopPI_le (d : ℝ) : subLoopPI d ≤ PI := by
  induction d using subLoopPI.induct with
  | case1 d h ih => rw [subLoopPI_of_gt h]; exact ih
  | case2 d h => rw [subLoopPI_of_not_gt h]; exact le_of_not_lt h

/-- The second loop always ends at or above -PI. -/
theorem addLoopPI_ge (d : ℝ) : -PI ≤ addLoopPI d := by
  induction d using addLoopPI.induct with
  | case1 d h ih => rw [addLoopPI_of_lt h]; exact ih
  | case2 d h => rw [addLoopPI_of_not_lt h]; exact le_of_not_lt h

/-- The second loop keeps an input at or below PI at or below PI. -/
theorem addLoopPI_le {d : ℝ} (hd : d ≤ PI) : addLoopPI d ≤ PI := by
  have hT : TWOPI = 2 * PI := rfl
  induction d using addLoopPI.induct with
  | case1 d h ih =>
      rw [addLoopPI_of_lt h]
      exact ih (by linarith)
  | case2 d h => rw [addLoopPI_of_not_lt h]; exact hd

/-- The first loop changes its input by an integer multiple of TWOPI. -/
theorem subLoopPI_mod (d : ℝ) : ∃ j : ℤ, subLoopPI d = d - TWOPI * j := by
  induction d using subLoopPI.induct with
  | case1 d h ih =>
      obtain ⟨j, hj⟩ := ih
      refine ⟨j + 1, ?_⟩
      rw [subLoopPI_of_gt h, hj]
      push_cast
      ring
  | case2 d h =>
      exact ⟨0, by rw [subLoopPI_of_not_gt h]; push_cast; ring⟩

/-- The second loop changes its input by an integer multiple of TWOPI. -/
theorem addLoopPI_mod (d : ℝ) : ∃ j : ℤ, addLoopPI d = d + TWOPI * j := by
  induction d using addLoopPI.induct with
  | case1 d h ih =>
      obtain ⟨j, hj⟩ := ih
      refine ⟨j + 1, ?_⟩
      rw [addLoopPI_of_lt h, hj]
      push_cast
      ring
  | case2 d h =>
      exact ⟨0, by rw [addLoopPI_of_not_lt h]; push_cast; ring⟩

/-- Normalization changes the longitude difference by a multiple of TWOPI. -/
theorem normLon_mod (d : ℝ) : ∃ j : ℤ, normLon d = d + TWOPI * j := by
  obtain ⟨j1, h1⟩ := subLoopPI_mod d
  obtain ⟨j2, h2⟩ := addLoopPI_mod (subLoopPI d)
  refine ⟨j2 - j1, ?_⟩
  rw [normLon, h2, h1]
  push_cast
  ring

/-- Lower bound of the normalized longitude difference. -/
theorem normLon_ge (d : ℝ) : -PI ≤ normLon d := addLoopPI_ge _

/-- Upper bound of the normalized longitude difference. -/
theorem normLon_le (d : ℝ) : normLon d ≤ PI := addLoopPI_le (subLoopPI_le d)

/-- Away from the odd multiples of PI, normalization is invariant under
adding an integer multiple of TWOPI to its input. -/
theorem normLon_shift (d : ℝ) (k : ℤ)
    (hd : ∀ j : ℤ, d ≠ PI + TWOPI * j) :
    normLon (d + TWOPI * k) = normLon d := by
  have hT : TWOPI = 2 * PI := rfl
  have hPI : (0 : ℝ) < PI := by norm_num [PI]
  obtain ⟨j1, h1⟩ := normLon_mod (d + TWOPI * k)
  obtain ⟨j2, h2⟩ := normLon_mod d
  have hx1 : -PI ≤ normLon (d + TWOPI * k) := normLon_ge _
  have hx2 : normLon (d + TWOPI * k) ≤ PI := normLon_le _
  have hy1 : -PI ≤ normLon d := normLon_ge _
  have hy2 : normLon d ≤ PI := normLon_le _
  have hxne1 : normLon (d + TWOPI * k) ≠ PI := by
    intro hc
    apply hd (-(k + j1))
    rw [hc] at h1
    push_cast at h1 ⊢
    linarith
  have hxne2 : normLon (d + TWOPI * k) ≠ -PI := by
    intro hc
    apply hd (-(k + j1) - 1)
    rw [hc] at h1
    push_cast at h1 ⊢
    linarith
  have hyne1 : normLon d ≠ PI := by
    intro hc
    apply hd (-j2)
    rw [hc] at h2
    push_cast at h2 ⊢
    linarith
  have hyne2 : normLon d ≠ -PI := by
    intro hc
    apply hd (-j2 - 1)
    rw [hc] at h2
    push_cast at h2 ⊢
    linarith
  have hx1s : -PI < normLon (d + TWOPI * k) := lt_of_le_of_ne hx1 (Ne.symm hxne2)
  have hx2s : normLon (d + TWOPI * k) < PI := lt_of_le_of_ne hx2 hxne1
  have hy1s : -PI < normLon d := lt_of_le_of_ne hy1 (Ne.symm hyne2)
  have hy2s : normLon d < PI := lt_of_le_of_ne hy2 hyne1
  have hdiff : normLon (d + TWOPI * k) - normLon d
      = TWOPI * ((k + j1 - j2 : ℤ) : ℝ) := by
    rw [h1, h2]
    push_cast
    ring
  have hb1 : (-1 : ℝ) < ((k + j1 - j2 : ℤ) : ℝ) := by nlinarith
  have hb2 : ((k + j1 - j2 : ℤ) : ℝ) < 1 := by nlinarith
  have hz : (k + j1 - j2 : ℤ) = 0 := by
    have hb1i : (-1 : ℤ) < k + j1 - j2 := by exact_mod_cast hb1
    have hb2i : (k + j1 - j2 : ℤ) < 1 := by exact_mod_cast hb2
    omega
  have hfin : normLon (d + TWOPI * k) - normLon d = 0 := by
    rw [hdiff, hz]
    push_cast
    ring
  linarith

/-- Normalizing a zero longitude difference gives zero. -/
theorem normLon_zero : normLon 0 = 0 := by
  have h1 : subLoopPI 0 = 0 := subLoopPI_of_not_gt (by norm_num [PI])
  have h2 : addLoopPI 0 = 0 := addLoopPI_of_not_lt (by norm_num [PI])
  rw [normLon, h1, h2]

/-- Normalizing -PI leaves it unchanged: both loop guards fail at once. -/
theorem normLon_neg_PI : normLon (-PI) = -PI := by
  have h1 : subLoopPI (-PI) = -PI := subLoopPI_of_not_gt (by norm_num [PI])
  have h2 : addLoopPI (-PI) = -PI := addLoopPI_of_not_lt (lt_irrefl _)
  rw [normLon, h1, h2]

/-- Normalizing PI leaves it unchanged. -/
theorem normLon_PI : normLon PI = PI := by
  have h1 : subLoopPI PI = PI := subLoopPI_of_not_gt (lt_irrefl _)
  have h2 : addLoopPI PI = PI := addLoopPI_of_not_lt (by norm_num [PI])
  rw [normLon, h1, h2]

/-- After finitely many iterations the first while loop reaches the value
the recursive definition denotes, with the loop guard false there. -/
theorem subFuel_reaches (d : ℝ) :
    ∃ n : ℕ, subFuel n d = subLoopPI d ∧ ¬ subLoopPI d > PI := by
  induction d using subLoopPI.induct with
  | case1 d h ih =>
      obtain ⟨n, hn, hb⟩ := ih
      refine ⟨n + 1, ?_, ?_⟩
      · rw [subFuel, if_pos h, hn, subLoopPI_of_gt h]
      · rw [subLoopPI_of_gt h]; exact hb
  | case2 d h =>
      exact ⟨0, by rw [subFuel, subLoopPI_of_not_gt h],
        by rw [subLoopPI_of_not_gt h]; exact h⟩

/-- After finitely many iterations the second while loop reaches the value
the recursive definition denotes, with the loop guard false there. -/
theorem addFuel_reaches (d : ℝ) :
    ∃ n : ℕ, addFuel n d = addLoopPI d ∧ ¬ addLoopPI d < -PI := by
  induction d using addLoopPI.induct with
  | case1 d h ih =>
      obtain ⟨n, hn, hb⟩ := ih
      refine ⟨n + 1, ?_, ?_⟩
      · rw [addFuel, if_pos h, hn, addLoopPI_of_lt h]
      · rw [addLoopPI_of_lt h]; exact hb
  | case2 d h =>
      exact ⟨0, by rw [addFuel, addLoopPI_of_not_lt h],
        by rw [addLoopPI_of_not_lt h]; exact h⟩

/-! ### Claim theorems -/

/-- Claim C2: for every projection built by define_tmprojection, geod_tm
applied to latitude equal to the origin latitude and longitude equal to
the central meridian returns exactly (falseEasting, falseNorthing): the
normalized longitude difference is 0, so the easting correction vanishes,
and the meridian arc equals the cached originArc, so the northing
correction vanishes. -/
theorem geod_tm_origin_fixed_point (a rf cm sf lto fe fn utom : ℝ) :
    geod_tm (define_tmprojection a rf cm sf lto fe fn utom) cm lto = (fe, fn) := by
  simp only [geod_tm, define_tmprojection, meridian_arc, sub_self, normLon_zero,
    Prod.mk.injEq]
  constructor <;> ring

/-- Claim C3: for every ellipsoid and every latitude in radians, with no
range checks, meridian_arc returns
a (A0 lt - A2 sin 2lt + A4 sin 4lt - A6 sin 6lt) with the Helmert
coefficients A0, A2, A4, A6 built from e2, e4 = e2 squared and
e6 = e2 cubed. -/
theorem meridian_arc_series (tm : tmprojection) (lt : ℝ) :
    meridian_arc tm lt =
      tm.a * ((1 - tm.e2 / 4 - 3 * tm.e2 ^ 2 / 64 - 5 * tm.e2 ^ 3 / 256) * lt
        - ((3 / 8) * (tm.e2 + tm.e2 ^ 2 / 4 + 15 * tm.e2 ^ 3 / 128)) * Real.sin (2 * lt)
        + ((15 / 256) * (tm.e2 ^ 2 + 3 * tm.e2 ^ 3 / 4)) * Real.sin (4 * lt)
        - (35 * tm.e2 ^ 3 / 3072) * Real.sin (6 * lt)) := by
  simp only [meridian_arc]
  ring

/-- Claim C4: for every ellipsoid and every arc length, foot_point_lat
returns the fixed-order truncated series in the third flattening
n = f / (2 - f) with rectifying radius g and sigma = m / g, with no
iteration or convergence check. -/
theorem foot_point_lat_series (tm : tmprojection) (m : ℝ) :
    foot_point_lat tm m =
      m / (tm.a * (1 - tm.f / (2 - tm.f)) * (1 - (tm.f / (2 - tm.f)) ^ 2) *
          (1 + 9 * (tm.f / (2 - tm.f)) ^ 2 / 4 + 225 * (tm.f / (2 - tm.f)) ^ 4 / 64))
      + (3 * (tm.f / (2 - tm.f)) / 2 - 27 * (tm.f / (2 - tm.f)) ^ 3 / 32) *
          Real.sin (2 * (m / (tm.a * (1 - tm.f / (2 - tm.f)) * (1 - (tm.f / (2 - tm.f)) ^ 2) *
          (1 + 9 * (tm.f / (2 - tm.f)) ^ 2 / 4 + 225 * (tm.f / (2 - tm.f)) ^ 4 / 64))))
      + (21 * (tm.f / (2 - tm.f)) ^ 2 / 16 - 55 * (tm.f / (2 - tm.f)) ^ 4 / 32) *
          Real.sin (4 * (m / (tm.a * (1 - tm.f / (2 - tm.f)) * (1 - (tm.f / (2 - tm.f)) ^ 2) *
          (1 + 9 * (tm.f / (2 - tm.f)) ^ 2 / 4 + 225 * (tm.f / (2 - tm.f)) ^ 4 / 64))))
      + (151 * (tm.f / (2 - tm.f)) ^ 3 / 96) *
          Real.sin (6 * (m / (tm.a * (1 - tm.f / (2 - tm.f)) * (1 - (tm.f / (2 - tm.f)) ^ 2) *
          (1 + 9 * (tm.f / (2 - tm.f)) ^ 2 / 4 + 225 * (tm.f / (2 - tm.f)) ^ 4 / 64))))
      + (1097 * (tm.f / (2 - tm.f)) ^ 4 / 512) *
          Real.sin (8 * (m / (tm.a * (1 - tm.f / (2 - tm.f)) * (1 - (tm.f / (2 - tm.f)) ^ 2) *
          (1 + 9 * (tm.f / (2 - tm.f)) ^ 2 / 4 + 225 * (tm.f / (2 - tm.f)) ^ 4 / 64)))) := by
  simp only [foot_point_lat]
  ring_nf

/-- Claim C5 counterexample: shifting the longitude by one full turn of
TWOPI does not always leave geod_tm unchanged.  On the unit sphere with
central meridian 0, latitude 0 and longitude -PI, the shifted longitude
-PI + TWOPI normalizes to PI while -PI normalizes to -PI, and the two
eastings differ in sign. -/
theorem geod_tm_lon_wrap_cex :
    geod_tm cexTM (-PI + TWOPI * ((1 : ℤ) : ℝ)) 0 ≠ geod_tm cexTM (-PI) 0 := by
  have harg : -PI + TWOPI * ((1 : ℤ) : ℝ) = PI := by
    push_cast
    rw [TWOPI]
    ring
  rw [harg]
  intro hEq
  have h' := congrArg Prod.fst hEq
  simp only [geod_tm, cexTM, sub_zero, normLon_PI, normLon_neg_PI, meridian_arc] at h'
  norm_num [Real.sin_zero, Real.cos_zero, Real.sqrt_one, PI] at h'

/-- Claim C5 (amended): for every projection, latitude, longitude and
integer k, provided the longitude difference to the central meridian is
not an odd multiple of PI (so that normalization does not sit on the
boundary pair -PI, PI), geod_tm is unchanged by shifting the longitude by
k times TWOPI. -/
theorem geod_tm_lon_wrap_shift (tm : tmprojection) (lt ln : ℝ) (k : ℤ)
    (hd : ∀ j : ℤ, ln - tm.meridian ≠ PI + TWOPI * j) :
    geod_tm tm (ln + TWOPI * k) lt = geod_tm tm ln lt := by
  have harg : ln + TWOPI * k - tm.meridian = ln - tm.meridian + TWOPI * k := by ring
  have h := normLon_shift (ln - tm.meridian) k hd
  simp only [geod_tm, harg, h]

/-- Witness for claim C5: a concrete instantiation of the amended shift
theorem on the unit sphere at longitude 0 and k = 1, whose longitude
difference 0 is not an odd multiple of PI. -/
theorem geod_tm_lon_wrap_shift_witness :
    (∀ j : ℤ, (0 : ℝ) - cexTM.meridian ≠ PI + TWOPI * j) ∧
    geod_tm cexTM (0 + TWOPI * ((1 : ℤ) : ℝ)) 0 = geod_tm cexTM 0 0 := by
  have h : ∀ j : ℤ, (0 : ℝ) - cexTM.meridian ≠ PI + TWOPI * j := by
    intro j hj
    norm_num [cexTM, PI, TWOPI] at hj
    have hj2 : (j : ℝ) = -1 / 2 := by linarith
    have hj3 : (2 * j : ℤ) = -1 := by exact_mod_cast (by linarith : (2 * (j : ℝ)) = -1)
    omega
  exact ⟨h, geod_tm_lon_wrap_shift cexTM 0 0 1 h⟩

/-- Claim C6 counterexample: the normalized longitude difference is not
always in the half-open interval (-PI, PI]: with input longitude 0 and
central meridian PI the difference is -PI, both loop guards fail at once,
and the result -PI is not greater than -PI. -/
theorem dlon_normalization_cex :
    ¬ (-PI < normLon ((0 : ℝ) - PI) ∧ normLon ((0 : ℝ) - PI) ≤ PI) := by
  rw [zero_sub, normLon_neg_PI]
  simp

/-- Claim C6 (amended): for every input longitude and central meridian the
normalized longitude difference produced by the two while loops of geod_tm
lies in the closed interval from -PI to PI. -/
theorem dlon_normalization_range (ln cm : ℝ) :
    -PI ≤ normLon (ln - cm) ∧ normLon (ln - cm) ≤ PI :=
  ⟨normLon_ge _, normLon_le _⟩

/-- Claim C7: define_tmprojection derives the flattening as 1/rf with the
sphere sentinel rf = 0 giving f = 0, the squared eccentricity as
2f - f squared, and the second eccentricity squared as e2 / (1 - e2); the
construction is a pure total function. -/
theorem define_tmprojection_ellipsoid (a rf cm sf lto fe fn utom : ℝ) :
    (define_tmprojection a rf cm sf lto fe fn utom).f
        = (if rf = 0 then 0 else 1 / rf)
    ∧ (define_tmprojection a rf cm sf lto fe fn utom).e2
        = 2 * (define_tmprojection a rf cm sf lto fe fn utom).f
          - (define_tmprojection a rf cm sf lto fe fn utom).f ^ 2
    ∧ (define_tmprojection a rf cm sf lto fe fn utom).ep2
        = (define_tmprojection a rf cm sf lto fe fn utom).e2
          / (1 - (define_tmprojection a rf cm sf lto fe fn utom).e2) := by
  refine ⟨?_, ?_, ?_⟩
  · simp only [define_tmprojection]
    by_cases h : rf = 0 <;> simp [h]
  · simp only [define_tmprojection]
    ring
  · simp only [define_tmprojection]

/-- Claim C8: every conversion is total: geod_tm and tm_geod return a
result for all real inputs, and in particular each longitude-normalization
while loop of geod_tm halts after finitely many iterations with its guard
false, at exactly the value the program computes. -/
theorem conversions_total :
    (∀ (tm : tmprojection) (ln lt : ℝ), ∃ ce cn : ℝ, geod_tm tm ln lt = (ce, cn))
    ∧ (∀ (tm : tmprojection) (ce cn : ℝ), ∃ ln lt : ℝ, tm_geod tm ce cn = (ln, lt))
    ∧ (∀ d : ℝ, ∃ n : ℕ, subFuel n d = subLoopPI d ∧ ¬ subLoopPI d > PI)
    ∧ (∀ d : ℝ, ∃ n : ℕ, addFuel n d = addLoopPI d ∧ ¬ addLoopPI d < -PI) := by
  refine ⟨?_, ?_, subFuel_reaches, addFuel_reaches⟩
  · intro tm ln lt
    exact ⟨(geod_tm tm ln lt).1, (geod_tm tm ln lt).2, rfl⟩
  · intro tm ce cn
    exact ⟨(tm_geod tm ce cn).1, (tm_geod tm ce cn).2, rfl⟩

/-- Claim C9: after any call to get_nztm_projection the initiallized flag
is set; a further call returns the same projection and leaves the state
unchanged; and construction from the uninitialized state yields identical
parameter values whatever junk the static storage held. -/
theorem get_nztm_projection_once :
    (∀ s : NztmGlobals, (get_nztm_projection s).2.initiallized = true)
    ∧ (∀ s : NztmGlobals,
        get_nztm_projection (get_nztm_projection s).2
          = ((get_nztm_projection s).1, (get_nztm_projection s).2))
    ∧ (∀ p q : tmprojection,
        (get_nztm_projection ⟨false, p⟩).1 = (get_nztm_projection ⟨false, q⟩).1) := by
  refine ⟨?_, ?_, ?_⟩
  · rintro ⟨b, p⟩
    cases b <;> simp [get_nztm_projection]
  · rintro ⟨b, p⟩
    cases b <;> simp [get_nztm_projection]
  · intro p q
    simp [get_nztm_projection]

/-- Claim C10: for every projection with nonzero unit-to-metre factor and
every latitude whose cosine is nonzero, geod_tm at longitude equal to the
central meridian returns easting exactly equal to the false easting: the
normalized difference is 0 and the whole easting correction carries it as
a factor. -/
theorem geod_tm_central_meridian_easting (tm : tmprojection) (lt : ℝ)
    (hu : tm.utom ≠ 0) (hc : Real.cos lt ≠ 0) :
    (geod_tm tm tm.meridian lt).1 = tm.falsee := by
  simp only [geod_tm, sub_self, normLon_zero]
  ring

/-- Witness for claim C10: the unit-sphere projection with unit metre
factor at latitude 0, where the cosine is 1. -/
theorem geod_tm_central_meridian_easting_witness :
    (cexTM.utom ≠ 0 ∧ Real.cos 0 ≠ 0) ∧
    (geod_tm cexTM cexTM.meridian 0).1 = cexTM.falsee := by
  have hu : cexTM.utom ≠ 0 := by norm_num [cexTM]
  have hc : Real.cos 0 ≠ 0 := by norm_num
  exact ⟨⟨hu, hc⟩, geod_tm_central_meridian_easting cexTM 0 hu hc⟩

end NZTM
